import Mathlib

/-!
Verification development for the multi-chain wallet analyser (src/bot.py).

The Python core is shallowly embedded: amounts (Python floats holding
decimal token quantities) are modelled as rationals, timestamps (Unix
seconds, Python datetimes compared by their underlying instant) as
integers, and Python dicts (which iterate in insertion order) as
association lists over `String` keys.  Network responses are passed in
as explicit data so that every function is pure and executable.
-/

namespace Wallet

/-! ### Association lists modelling Python dicts (insertion ordered)

`alookup` finds the value stored under a key; `aset` overwrites the value
under an existing key in place (keeping its position, as Python dict
assignment does) or appends a fresh binding at the end. -/

def alookup {α : Type} : List (String × α) → String → Option α
  | [], _ => none
  | kv :: rest, key => if kv.1 == key then some kv.2 else alookup rest key

def aset {α : Type} : List (String × α) → String → α → List (String × α)
  | [], key, v => [(key, v)]
  | kv :: rest, key, v => if kv.1 == key then (key, v) :: rest else kv :: aset rest key v

theorem alookup_aset_self {α : Type} (l : List (String × α)) (k : String) (v : α) :
    alookup (aset l k v) k = some v := by
  induction l with
  | nil => simp [aset, alookup]
  | cons kv rest ih =>
    by_cases h : kv.1 == k
    · simp [aset, h, alookup]
    · simp [aset, h, alookup, ih]

theorem alookup_aset_ne {α : Type} (l : List (String × α)) (k k2 : String) (v : α)
    (h : k2 ≠ k) : alookup (aset l k v) k2 = alookup l k2 := by
  have hne : (k == k2) = false := beq_eq_false_iff_ne.2 (Ne.symm h)
  induction l with
  | nil => simp [aset, alookup, hne]
  | cons kv rest ih =>
    by_cases hk : kv.1 == k
    · have hk1 : kv.1 = k := beq_iff_eq.1 hk
      simp [aset, hk, alookup, hk1, hne]
    · simp [aset, hk, alookup, ih]

theorem aset_ne_nil {α : Type} (l : List (String × α)) (k : String) (v : α) :
    aset l k v ≠ [] := by
  cases l with
  | nil => simp [aset]
  | cons kv rest =>
    by_cases h : kv.1 == k <;> simp [aset, h]

theorem alookup_mem {α : Type} {l : List (String × α)} {k : String} {v : α}
    (h : alookup l k = some v) : (k, v) ∈ l := by
  induction l with
  | nil => simp [alookup] at h
  | cons kv rest ih =>
    by_cases hk : kv.1 == k
    · have hk1 : kv.1 = k := beq_iff_eq.1 hk
      simp [alookup, hk] at h
      have he : (k, v) = kv := by
        rw [← hk1, ← h]
      rw [he]
      exact List.mem_cons_self kv rest
    · simp [alookup, hk] at h
      exact List.mem_cons_of_mem _ (ih h)

theorem alookup_of_mem_nodup {α : Type} {l : List (String × α)} {k : String} {v : α}
    (hnd : (l.map Prod.fst).Nodup) (hm : (k, v) ∈ l) : alookup l k = some v := by
  induction l with
  | nil => simp at hm
  | cons kv rest ih =>
    simp only [List.map_cons, List.nodup_cons] at hnd
    rcases List.mem_cons.1 hm with he | hr
    · rw [← he]
      simp [alookup]
    · have hk : kv.1 ≠ k := by
        intro he
        exact hnd.1 (he ▸ List.mem_map.2 ⟨(k, v), hr, rfl⟩)
      have : (kv.1 == k) = false := beq_eq_false_iff_ne.2 hk
      simp [alookup, this]
      exact ih hnd.2 hr

/-- Summing a weight over all values of an association list. -/
def sumWith {α : Type} (w : α → ℚ) (l : List (String × α)) : ℚ :=
  (l.map (fun kv => w kv.2)).sum

theorem sumWith_aset {α : Type} (w : α → ℚ) (l : List (String × α)) (k : String) (v : α) :
    sumWith w (aset l k v) =
      sumWith w l + w v - (match alookup l k with | some p => w p | none => 0) := by
  induction l with
  | nil => simp [aset, alookup, sumWith]
  | cons kv rest ih =>
    by_cases h : kv.1 == k
    · simp only [aset, h, if_true, alookup, sumWith, List.map_cons, List.sum_cons]
      ring
    · simp only [aset, h, if_false, alookup, sumWith, List.map_cons, List.sum_cons,
        Bool.false_eq_true] at *
      rw [ih]
      split <;> ring

/-! ### EVM token transfer events

Mirrors the fields of an Etherscan `tokentx` record that
`WalletAnalyzer.calculate_token_pnl` reads: `timeStamp` (seconds),
`contractAddress`, `tokenSymbol` (with the `UNKNOWN` default applied at
parse time), `value` (raw integer amount as a number), `tokenDecimal`
(absent field defaults to 18 via `.get`), `from`/`to` and `hash`. -/

structure TokenTx where
  timeStamp : Int
  contractAddress : String
  tokenSymbol : String
  value : ℚ
  tokenDecimal : Option Nat
  sender : String
  toAddr : String
  hash : String
  deriving DecidableEq

/-- Python `str.lower()` restricted to the character-wise case mapping
(the map over the underlying character list). -/
def lowerStr (s : String) : String := ⟨s.data.map Char.toLower⟩

/-- Models `float(tx[ value ]) / (10 ** int(tx.get( tokenDecimal , 18)))` (bot.py line 119). -/
def scaledValue (tx : TokenTx) : ℚ := tx.value / (10 : ℚ) ^ (tx.tokenDecimal.getD 18)

/-- Models `is_buy = tx[ to ].lower() == address.lower()` (bot.py line 120). -/
def isBuy (address : String) (tx : TokenTx) : Bool := lowerStr tx.toAddr == lowerStr address

/-- One entry of the `token_positions` dict built by `calculate_token_pnl`. -/
structure TokenPosition where
  symbol : String
  amount : ℚ
  buy_value : ℚ
  sell_value : ℚ
  first_trade : Int
  last_trade : Int
  deriving DecidableEq

/-- Models `cutoff = now - timedelta(days=days) if days else datetime.fromtimestamp(0)`
(bot.py lines 107, 224, 371, 431). -/
def cutoffTime (now : Int) (days : Option Nat) : Int :=
  match days with
  | some d => now - d * 86400
  | none => 0

/-- The engine keeps an event unless `tx_time < cutoff` (bot.py line 114). -/
def keptTx (cutoff : Int) (tx : TokenTx) : Bool := !decide (tx.timeStamp < cutoff)

/-- The fresh position created on first observation of a token
(bot.py lines 122-130). -/
def emptyPos (tx : TokenTx) : TokenPosition :=
  { symbol := tx.tokenSymbol, amount := 0, buy_value := 0, sell_value := 0,
    first_trade := tx.timeStamp, last_trade := tx.timeStamp }

/-- The buy/sell update plus the unconditional `last_trade` overwrite applied
to a position by one event (bot.py lines 134-141). -/
def applyTx (address : String) (p : TokenPosition) (tx : TokenTx) : TokenPosition :=
  let v := scaledValue tx
  let p1 := if isBuy address tx then
      { p with amount := p.amount + v, buy_value := p.buy_value + v }
    else
      { p with amount := p.amount - v, sell_value := p.sell_value + v }
  { p1 with last_trade := tx.timeStamp }

/-- Processing of one in-window event by `calculate_token_pnl`:
look up or create the position, then update it. -/
def processTx (address : String) (ps : List (String × TokenPosition)) (tx : TokenTx) :
    List (String × TokenPosition) :=
  aset ps tx.contractAddress
    (applyTx address ((alookup ps tx.contractAddress).getD (emptyPos tx)) tx)

/-- One loop iteration of `calculate_token_pnl`: skip events older than the
cutoff, otherwise update the position map and append to `trades` (modelled
by its length). -/
def stepTx (address : String) (cutoff : Int)
    (st : List (String × TokenPosition) × Nat) (tx : TokenTx) :
    List (String × TokenPosition) × Nat :=
  if keptTx cutoff tx then (processTx address st.1 tx, st.2 + 1) else st

/-- The accumulation pass of `calculate_token_pnl` (bot.py lines 112-149):
position map plus trade count. -/
def engineState (address : String) (cutoff : Int) (txs : List TokenTx) :
    List (String × TokenPosition) × Nat :=
  txs.foldl (stepTx address cutoff) ([], 0)

def enginePositions (address : String) (cutoff : Int) (txs : List TokenTx) :
    List (String × TokenPosition) :=
  (engineState address cutoff txs).1

/-- The `most_profitable` record built by both engines. -/
structure MostProfitable where
  token : String
  pnl : ℚ
  hold_days : Int
  deriving DecidableEq

/-- Models `(pos[ last_trade ] - pos[ first_trade ]).days`: Python timedelta days
is floor division of the signed second difference by 86400. -/
def evmHoldDays (p : TokenPosition) : Int := Int.fdiv (p.last_trade - p.first_trade) 86400

def pnlOf (p : TokenPosition) : ℚ := p.sell_value - p.buy_value

/-- One iteration of the reporting loop of `calculate_token_pnl`
(bot.py lines 155-166): `total_pnl += pnl` always; the running maximum and
`most_profitable` update on a strict improvement (`pnl > max_profit`, the
initial `-inf` modelled as `none`). -/
def pnlStep (acc : ℚ × Option ℚ × Option MostProfitable) (kv : String × TokenPosition) :
    ℚ × Option ℚ × Option MostProfitable :=
  let pnl := kv.2.sell_value - kv.2.buy_value
  let total := acc.1 + pnl
  let beats : Bool := match acc.2.1 with
    | none => true
    | some m => decide (m < pnl)
  if beats then (total, some pnl, some ⟨kv.2.symbol, pnl, evmHoldDays kv.2⟩)
  else (total, acc.2.1, acc.2.2)

structure TokenPnlResult where
  total_pnl : ℚ
  total_trades : Nat
  most_profitable : Option MostProfitable
  positions : Nat
  deriving DecidableEq

/-- Models `WalletAnalyzer.calculate_token_pnl` (bot.py lines 105-173), with the
wall clock `now` passed explicitly. -/
def calculate_token_pnl (token_txs : List TokenTx) (address : String) (days : Option Nat)
    (now : Int) : TokenPnlResult :=
  let cutoff := cutoffTime now days
  let st := engineState address cutoff token_txs
  let pass := st.1.foldl pnlStep (0, none, none)
  { total_pnl := pass.1, total_trades := st.2, most_profitable := pass.2.2,
    positions := st.1.length }

/-! ### Characterization of the EVM accumulation pass -/

/-- The in-window events of one token, in iteration order. -/
def tokenTxsOf (cutoff : Int) (token : String) (txs : List TokenTx) : List TokenTx :=
  txs.filter (fun tx => keptTx cutoff tx && tx.contractAddress == token)

/-- Cumulative inbound amount of a list of events. -/
def inboundSum (address : String) (l : List TokenTx) : ℚ :=
  ((l.filter (fun tx => isBuy address tx)).map scaledValue).sum

/-- Cumulative outbound amount of a list of events. -/
def outboundSum (address : String) (l : List TokenTx) : ℚ :=
  ((l.filter (fun tx => !isBuy address tx)).map scaledValue).sum

/-- The position a list of same-token events accumulates to: symbol and
first-seen from the first event in iteration order, last-seen from the last,
inbound in `buy_value`, outbound in `sell_value`. -/
def posOf (address : String) : List TokenTx → Option TokenPosition
  | [] => none
  | f :: rest =>
    some { symbol := f.tokenSymbol
         , amount := inboundSum address (f :: rest) - outboundSum address (f :: rest)
         , buy_value := inboundSum address (f :: rest)
         , sell_value := outboundSum address (f :: rest)
         , first_trade := f.timeStamp
         , last_trade := ((f :: rest).getLast (List.cons_ne_nil f rest)).timeStamp }

theorem inboundSum_append_one (address : String) (l : List TokenTx) (x : TokenTx) :
    inboundSum address (l ++ [x]) =
      inboundSum address l + (if isBuy address x then scaledValue x else 0) := by
  simp only [inboundSum, List.filter_append, List.map_append, List.sum_append]
  by_cases h : isBuy address x <;> simp [h]

theorem outboundSum_append_one (address : String) (l : List TokenTx) (x : TokenTx) :
    outboundSum address (l ++ [x]) =
      outboundSum address l + (if isBuy address x then 0 else scaledValue x) := by
  simp only [outboundSum, List.filter_append, List.map_append, List.sum_append]
  by_cases h : isBuy address x <;> simp [h]

theorem posOf_append_one (address : String) (l : List TokenTx) (x : TokenTx) :
    posOf address (l ++ [x]) =
      some (applyTx address ((posOf address l).getD (emptyPos x)) x) := by
  cases l with
  | nil =>
    simp only [List.nil_append, posOf, Option.getD_none, applyTx, emptyPos]
    by_cases h : isBuy address x <;>
      simp [h, inboundSum, outboundSum, List.getLast]
  | cons f rest =>
    have e1 : inboundSum address (f :: (rest ++ [x])) =
        inboundSum address (f :: rest) + (if isBuy address x then scaledValue x else 0) := by
      rw [← List.cons_append]
      exact inboundSum_append_one address (f :: rest) x
    have e2 : outboundSum address (f :: (rest ++ [x])) =
        outboundSum address (f :: rest) + (if isBuy address x then 0 else scaledValue x) := by
      rw [← List.cons_append]
      exact outboundSum_append_one address (f :: rest) x
    simp only [posOf, Option.getD_some, applyTx]
    by_cases h : isBuy address x
    · simp [h, e1, e2, List.getLast_append]
      ring
    · simp [h, e1, e2, List.getLast_append]
      ring

theorem alookup_enginePositions (address : String) (cutoff : Int) (txs : List TokenTx)
    (token : String) :
    alookup (enginePositions address cutoff txs) token =
      posOf address (tokenTxsOf cutoff token txs) := by
  induction txs using List.reverseRecOn with
  | nil => simp [enginePositions, engineState, tokenTxsOf, posOf, alookup]
  | append_singleton l x ih =>
    have hfold : enginePositions address cutoff (l ++ [x]) =
        (stepTx address cutoff (engineState address cutoff l) x).1 := by
      simp [enginePositions, engineState, List.foldl_append]
    rw [hfold, stepTx]
    by_cases hkept : keptTx cutoff x
    · simp only [hkept, if_true]
      by_cases htok : x.contractAddress = token
      · have hfil : tokenTxsOf cutoff token (l ++ [x]) = tokenTxsOf cutoff token l ++ [x] := by
          simp [tokenTxsOf, List.filter_append, hkept, htok]
        rw [hfil, posOf_append_one, processTx, htok]
        rw [alookup_aset_self]
        rw [← enginePositions, ih]
      · have hfil : tokenTxsOf cutoff token (l ++ [x]) = tokenTxsOf cutoff token l := by
          have : (x.contractAddress == token) = false := beq_eq_false_iff_ne.2 htok
          simp [tokenTxsOf, List.filter_append, this]
        rw [hfil, processTx]
        rw [alookup_aset_ne _ _ _ _ (fun he => htok he.symm)]
        rw [← enginePositions, ih]
    · simp only [hkept, if_false, Bool.false_eq_true]
      have hfil : tokenTxsOf cutoff token (l ++ [x]) = tokenTxsOf cutoff token l := by
        have : (keptTx cutoff x && (x.contractAddress == token)) = false := by
          simp [hkept]
        simp [tokenTxsOf, List.filter_append, this]
      rw [hfil, ← enginePositions, ih]

/-! ### Total P&L as a signed sum over the kept events -/

/-- Contribution of one event to the total engine P&L: outbound positive,
inbound negative (the code computes `sell_value - buy_value` per token). -/
def signedFlow (address : String) (tx : TokenTx) : ℚ :=
  if isBuy address tx then -(scaledValue tx) else scaledValue tx

def signedFlowSum (address : String) (cutoff : Int) (txs : List TokenTx) : ℚ :=
  ((txs.filter (fun tx => keptTx cutoff tx)).map (signedFlow address)).sum

theorem pnlOf_applyTx (address : String) (p : TokenPosition) (tx : TokenTx) :
    pnlOf (applyTx address p tx) = pnlOf p + signedFlow address tx := by
  by_cases h : isBuy address tx <;> simp [pnlOf, applyTx, signedFlow, h] <;> ring

theorem pnlOf_emptyPos (tx : TokenTx) : pnlOf (emptyPos tx) = 0 := by
  simp [pnlOf, emptyPos]

theorem sumWith_enginePositions (address : String) (cutoff : Int) (txs : List TokenTx) :
    sumWith pnlOf (enginePositions address cutoff txs) = signedFlowSum address cutoff txs := by
  induction txs using List.reverseRecOn with
  | nil => simp [enginePositions, engineState, signedFlowSum, sumWith]
  | append_singleton l x ih =>
    have hfold : enginePositions address cutoff (l ++ [x]) =
        (stepTx address cutoff (engineState address cutoff l) x).1 := by
      simp [enginePositions, engineState, List.foldl_append]
    rw [hfold, stepTx]
    by_cases hkept : keptTx cutoff x
    · have hsum : signedFlowSum address cutoff (l ++ [x]) =
          signedFlowSum address cutoff l + signedFlow address x := by
        simp [signedFlowSum, List.filter_append, hkept]
      simp only [hkept, if_true]
      rw [hsum, ← ih, processTx, sumWith_aset, ← enginePositions]
      cases he : alookup (enginePositions address cutoff l) x.contractAddress with
      | none =>
        simp [he, pnlOf_applyTx, pnlOf_emptyPos]
      | some p =>
        simp [he, pnlOf_applyTx]
        ring
    · have hsum : signedFlowSum address cutoff (l ++ [x]) = signedFlowSum address cutoff l := by
        simp [signedFlowSum, List.filter_append, hkept]
      simp only [hkept, if_false, Bool.false_eq_true]
      rw [hsum, ← enginePositions, ih]

/-- The trade counter equals the number of kept events. -/
theorem engineState_trades (address : String) (cutoff : Int) (txs : List TokenTx) :
    (engineState address cutoff txs).2 = (txs.filter (fun tx => keptTx cutoff tx)).length := by
  induction txs using List.reverseRecOn with
  | nil => simp [engineState]
  | append_singleton l x ih =>
    have hfold : engineState address cutoff (l ++ [x]) =
        stepTx address cutoff (engineState address cutoff l) x := by
      simp [engineState, List.foldl_append]
    rw [hfold, stepTx]
    by_cases hkept : keptTx cutoff x <;>
      simp [hkept, List.filter_append, ih]

/-! ### The shared running-maximum selection pattern

Both reporting loops keep a running maximum (initially `-inf`, modelled
`none`) and a best record, updated on `profit > max && eligible`. -/

def selStep {β : Type} (eligible : β → Bool) (profit : β → ℚ) (mk : β → MostProfitable)
    (acc : Option ℚ × Option MostProfitable) (b : β) : Option ℚ × Option MostProfitable :=
  let beats : Bool := match acc.1 with
    | none => true
    | some m => decide (m < profit b)
  if beats && eligible b then (some (profit b), some (mk b)) else acc

def selGen {β : Type} (eligible : β → Bool) (profit : β → ℚ) (mk : β → MostProfitable)
    (init : Option ℚ × Option MostProfitable) (l : List β) : Option ℚ × Option MostProfitable :=
  l.foldl (selStep eligible profit mk) init

theorem selGen_char {β : Type} (eligible : β → Bool) (profit : β → ℚ)
    (mk : β → MostProfitable) (l : List β) :
    (selGen eligible profit mk (none, none) l = (none, none) ∧
        ∀ b ∈ l, eligible b = false) ∨
    (∃ b ∈ l, eligible b = true ∧
      selGen eligible profit mk (none, none) l = (some (profit b), some (mk b)) ∧
      ∀ c ∈ l, eligible c = true → profit c ≤ profit b) := by
  induction l using List.reverseRecOn with
  | nil => left; simp [selGen]
  | append_singleton l x ih =>
    have hfold : selGen eligible profit mk (none, none) (l ++ [x]) =
        selStep eligible profit mk (selGen eligible profit mk (none, none) l) x := by
      simp [selGen, List.foldl_append]
    rcases ih with ⟨hval, hall⟩ | ⟨b, hbmem, hbel, hval, hmax⟩
    · by_cases hel : eligible x
      · right
        refine ⟨x, by simp, hel, ?_, ?_⟩
        · rw [hfold, hval, selStep]
          simp [hel]
        · intro c hc hcel
          rcases List.mem_append.1 hc with hcl | hcx
          · exact absurd hcel (by simp [hall c hcl])
          · have : c = x := by simpa using hcx
            rw [this]
      · left
        constructor
        · rw [hfold, hval, selStep]
          simp [hel]
        · intro c hc
          rcases List.mem_append.1 hc with hcl | hcx
          · exact hall c hcl
          · have : c = x := by simpa using hcx
            rw [this]
            exact Bool.eq_false_iff.2 hel
    · right
      by_cases hstep : (profit b < profit x) ∧ eligible x = true
      · refine ⟨x, by simp, hstep.2, ?_, ?_⟩
        · rw [hfold, hval, selStep]
          simp [hstep.1, hstep.2]
        · intro c hc hcel
          rcases List.mem_append.1 hc with hcl | hcx
          · exact le_trans (hmax c hcl hcel) (le_of_lt hstep.1)
          · have : c = x := by simpa using hcx
            rw [this]
      · refine ⟨b, List.mem_append_left _ hbmem, hbel, ?_, ?_⟩
        · rw [hfold, hval, selStep]
          by_cases hel : eligible x
          · have hnlt : ¬ profit b < profit x := fun hlt => hstep ⟨hlt, hel⟩
            simp [hel, hnlt]
          · simp [hel]
        · intro c hc hcel
          rcases List.mem_append.1 hc with hcl | hcx
          · exact hmax c hcl hcel
          · have hcx2 : c = x := by simpa using hcx
            rcases not_and_or.1 hstep with hnlt | hnel
            · rw [hcx2]
              exact le_of_not_lt hnlt
            · rw [hcx2] at hcel
              exact absurd hcel hnel

/-- The reporting loop of `calculate_token_pnl` is `selStep` with no
eligibility filter, run alongside the total accumulation. -/
theorem pnlPass_eq_selGen (l : List (String × TokenPosition)) :
    ∀ acc : ℚ × Option ℚ × Option MostProfitable,
    (l.foldl pnlStep acc).2 =
      selGen (fun _ => true) (fun kv => pnlOf kv.2)
        (fun kv => ⟨kv.2.symbol, pnlOf kv.2, evmHoldDays kv.2⟩) acc.2 l := by
  induction l with
  | nil => intro acc; simp [selGen]
  | cons kv rest ih =>
    intro acc
    obtain ⟨t, mo, mp⟩ := acc
    have hstep : (pnlStep (t, mo, mp) kv).2 =
        selStep (fun _ => true) (fun kv => pnlOf kv.2)
          (fun kv => ⟨kv.2.symbol, pnlOf kv.2, evmHoldDays kv.2⟩) (mo, mp) kv := by
      simp only [pnlStep, selStep, pnlOf, Bool.and_true]
      cases mo with
      | none => simp
      | some m => by_cases hm : m < kv.2.sell_value - kv.2.buy_value <;> simp [hm]
    simp only [List.foldl_cons, selGen, ih (pnlStep (t, mo, mp) kv), hstep, selGen]

theorem pnlPass_fst (l : List (String × TokenPosition)) :
    ∀ acc : ℚ × Option ℚ × Option MostProfitable,
    (l.foldl pnlStep acc).1 = acc.1 + sumWith pnlOf l := by
  induction l with
  | nil => intro acc; simp [sumWith]
  | cons kv rest ih =>
    intro acc
    have hstep : (pnlStep acc kv).1 = acc.1 + pnlOf kv.2 := by
      simp only [pnlStep, pnlOf]
      split <;> rfl
    simp only [List.foldl_cons, ih (pnlStep acc kv), hstep, sumWith, List.map_cons,
      List.sum_cons]
    ring

/-! ### Chain classification (`WalletAnalyzer.detect_chain`, bot.py lines 97-103) -/

def detect_chain (address : String) : String :=
  if address.length == 42 && address.startsWith "0x" then "ethereum"
  else if decide (32 ≤ address.length) && decide (address.length ≤ 44) &&
      !address.startsWith "0x" then "solana"
  else "unknown"

theorem detect_chain_eth_iff (address : String) :
    detect_chain address = "ethereum" ↔
      address.length = 42 ∧ address.startsWith "0x" = true := by
  unfold detect_chain
  split_ifs with h1 h2
  · simp only [Bool.and_eq_true, beq_iff_eq] at h1
    simpa using h1
  · constructor
    · intro h
      exact absurd h (by decide)
    · intro h
      simp only [Bool.and_eq_true, decide_eq_true_eq] at h2
      rw [h.2] at h2
      simp at h2
  · constructor
    · intro h
      exact absurd h (by decide)
    · intro h
      exact absurd (by simp [h.1, h.2] : (address.length == 42 && address.startsWith "0x") = true) h1

theorem detect_chain_sol_iff (address : String) :
    detect_chain address = "solana" ↔
      32 ≤ address.length ∧ address.length ≤ 44 ∧ address.startsWith "0x" = false := by
  unfold detect_chain
  split_ifs with h1 h2
  · simp only [Bool.and_eq_true, beq_iff_eq] at h1
    constructor
    · intro h
      exact absurd h (by decide)
    · intro h
      rw [h1.2] at h
      simp at h
  · simp only [Bool.and_eq_true, decide_eq_true_eq, Bool.not_eq_true'] at h2
    constructor
    · intro _
      exact ⟨h2.1.1, h2.1.2, h2.2⟩
    · intro _
      rfl
  · constructor
    · intro h
      exact absurd h (by decide)
    · intro h
      exact absurd (by simp [h.1, h.2.1, h.2.2] :
        (decide (32 ≤ address.length) && decide (address.length ≤ 44) &&
          !address.startsWith "0x") = true) h2

theorem detect_chain_total (address : String) :
    detect_chain address = "ethereum" ∨ detect_chain address = "solana" ∨
      detect_chain address = "unknown" := by
  unfold detect_chain
  split_ifs <;> simp

/-- C2: every address string is classified into exactly one of ethereum,
solana, unknown; a string of exactly 42 characters starting with 0x maps to
ethereum, a string of length 32 to 44 not starting with 0x maps to solana,
and everything else maps to unknown.  `detect_chain` is a total pure
function, so no error path exists. -/
theorem detect_chain_classification (address : String) :
    (detect_chain address = "ethereum" ∨ detect_chain address = "solana" ∨
      detect_chain address = "unknown") ∧
    (detect_chain address = "ethereum" ↔
      address.length = 42 ∧ address.startsWith "0x" = true) ∧
    (detect_chain address = "solana" ↔
      32 ≤ address.length ∧ address.length ≤ 44 ∧ address.startsWith "0x" = false) ∧
    (detect_chain address = "unknown" ↔
      ¬(address.length = 42 ∧ address.startsWith "0x" = true) ∧
      ¬(32 ≤ address.length ∧ address.length ≤ 44 ∧ address.startsWith "0x" = false)) := by
  refine ⟨detect_chain_total address, detect_chain_eth_iff address,
    detect_chain_sol_iff address, ?_⟩
  rcases detect_chain_total address with h | h | h
  · rw [h]
    simp only [detect_chain_eth_iff address] at h
    constructor
    · intro he
      exact absurd he (by decide)
    · intro hc
      exact absurd h hc.1
  · rw [h]
    simp only [detect_chain_sol_iff address] at h
    constructor
    · intro he
      exact absurd he (by decide)
    · intro hc
      exact absurd h hc.2
  · rw [h]
    constructor
    · intro _
      constructor
      · intro hc
        have := (detect_chain_eth_iff address).2 hc
        rw [this] at h
        exact absurd h (by decide)
      · intro hc
        have := (detect_chain_sol_iff address).2 hc
        rw [this] at h
        exact absurd h (by decide)
    · intro _
      rfl

/-! ### EVM window filters (`analyze_ethereum_wallet`, bot.py lines 370-377) -/

/-- A native Etherscan `txlist` record as read by `analyze_ethereum_wallet`. -/
structure EthTx where
  timeStamp : Int
  value : ℚ
  sender : String
  toAddr : String
  hash : String
  deriving DecidableEq

/-- bot.py line 373: the native list keeps events with `tx_time > cutoff`
(strict). -/
def periodTxs (cutoff : Int) (txs : List EthTx) : List EthTx :=
  txs.filter (fun tx => decide (cutoff < tx.timeStamp))

/-- bot.py line 374: the ERC-20 list keeps events with `tx_time > cutoff`
(strict). -/
def periodTokenTxs (cutoff : Int) (txs : List TokenTx) : List TokenTx :=
  txs.filter (fun tx => decide (cutoff < tx.timeStamp))

/-- Concrete fixtures used by witnesses and counterexamples. -/
def ethBoundaryTx : EthTx :=
  { timeStamp := 777600, value := 1, sender := "b", toAddr := "a", hash := "h" }

def tokBoundaryTx : TokenTx :=
  { timeStamp := 777600, contractAddress := "T", tokenSymbol := "TKN", value := 5,
    tokenDecimal := some 0, sender := "b", toAddr := "a", hash := "h" }

def tokBuyTx : TokenTx :=
  { timeStamp := 0, contractAddress := "T", tokenSymbol := "TKN", value := 5,
    tokenDecimal := some 0, sender := "b", toAddr := "a", hash := "h1" }

def tokSellTx : TokenTx :=
  { timeStamp := 10, contractAddress := "T", tokenSymbol := "TKN", value := 2,
    tokenDecimal := some 0, sender := "a", toAddr := "c", hash := "h2" }

def tokThirdPartyTx : TokenTx :=
  { timeStamp := 0, contractAddress := "T", tokenSymbol := "TKN", value := 5,
    tokenDecimal := some 0, sender := "x", toAddr := "y", hash := "h3" }

/-- The position accumulated from `tokBuyTx` alone. -/
def tokBuyOnlyPos : TokenPosition :=
  { symbol := "TKN", amount := 5, buy_value := 5, sell_value := 0,
    first_trade := 0, last_trade := 0 }

/-- C3 counterexample: an event whose timestamp is exactly `now - days`
is dropped by both EVM list filters, refuting the claim that the boundary
event is included there. -/
theorem window_filter_boundary_cex :
    cutoffTime 864000 (some 1) = 777600 ∧
    ethBoundaryTx.timeStamp = 777600 ∧ tokBoundaryTx.timeStamp = 777600 ∧
    periodTxs (cutoffTime 864000 (some 1)) [ethBoundaryTx] = [] ∧
    periodTokenTxs (cutoffTime 864000 (some 1)) [tokBoundaryTx] = [] := by
  refine ⟨by decide, by decide, by decide, by decide, by decide⟩

/-- C3 (amended): the two EVM list filters are strict: an event is kept
exactly when its timestamp is strictly after `now - days`, so an event at
exactly the cutoff boundary is excluded there; the token P&L engine instead
keeps events at or after the cutoff, so the boundary event is included and
its trade count equals the number of events with timestamp at or after the
cutoff; with no window set the cutoff is the epoch (timestamp 0). -/
theorem window_filter_spec (cutoff now : Int) (days : Option Nat) (address : String)
    (e : EthTx) (txs : List EthTx) (t : TokenTx) (ttxs : List TokenTx) :
    (e ∈ periodTxs cutoff txs ↔ e ∈ txs ∧ cutoff < e.timeStamp) ∧
    (t ∈ periodTokenTxs cutoff ttxs ↔ t ∈ ttxs ∧ cutoff < t.timeStamp) ∧
    (keptTx cutoff t = true ↔ cutoff ≤ t.timeStamp) ∧
    (calculate_token_pnl ttxs address days now).total_trades =
      (ttxs.filter (fun tx => decide (cutoffTime now days ≤ tx.timeStamp))).length ∧
    cutoffTime now none = 0 := by
  have hkept : ∀ c : Int, ∀ tx : TokenTx, keptTx c tx = decide (c ≤ tx.timeStamp) := by
    intro c tx
    simp [keptTx, ← decide_not, decide_eq_decide, Int.not_lt]
  refine ⟨?_, ?_, ?_, ?_, rfl⟩
  · simp [periodTxs, List.mem_filter]
  · simp [periodTokenTxs, List.mem_filter]
  · rw [hkept]
    simp
  · show (engineState address (cutoffTime now days) ttxs).2 = _
    rw [engineState_trades]
    congr 1
    apply List.filter_congr
    intro tx _
    rw [hkept]

/-! ### C1: the EVM P&L sign convention -/

/-- Cumulative inbound amount of one token over the kept window. -/
def inboundTotal (address : String) (cutoff : Int) (txs : List TokenTx) (token : String) : ℚ :=
  inboundSum address (tokenTxsOf cutoff token txs)

/-- Cumulative outbound amount of one token over the kept window. -/
def outboundTotal (address : String) (cutoff : Int) (txs : List TokenTx) (token : String) : ℚ :=
  outboundSum address (tokenTxsOf cutoff token txs)

/-- C1 counterexample: a single inbound transfer of 5 tokens yields an engine
total of -5, while the claimed `inbound - outbound` total is 5: the engine
computes `sell_value - buy_value`, i.e. outbound minus inbound, so the claim
as stated is false. -/
theorem calculate_token_pnl_sign_cex :
    (calculate_token_pnl [tokBuyTx] "a" none 0).total_pnl = -5 ∧
    inboundTotal "a" (cutoffTime 0 none) [tokBuyTx] "T" -
      outboundTotal "a" (cutoffTime 0 none) [tokBuyTx] "T" = 5 := by
  have hb : isBuy "a" tokBuyTx = true := by decide
  have hk : keptTx (cutoffTime 0 none) tokBuyTx = true := by decide
  have hc : (tokBuyTx.contractAddress == "T") = true := by decide
  have hv : scaledValue tokBuyTx = 5 := by norm_num [scaledValue, tokBuyTx]
  constructor
  · norm_num [calculate_token_pnl, enginePositions, engineState, stepTx, hk,
      processTx, applyTx, emptyPos, alookup, aset, hb, hv, pnlStep]
  · norm_num [inboundTotal, outboundTotal, tokenTxsOf, inboundSum, outboundSum, hk, hb,
      hc, hv, List.filter_cons]

/-- C1 (amended): in the EVM token P&L engine each position accumulates the
cumulative inbound amount in `buy_value` and the cumulative outbound amount
in `sell_value`; the per-token net profit the engine derives is outbound
minus inbound (`sell_value - buy_value`, the opposite sign of the claimed
`inbound - outbound`); the reported total equals the sum of these per-token
differences (equivalently, the signed sum over kept events with outbound
positive); and the most-profitable token attains the maximum of outbound
minus inbound over all positions, with no eligibility filter beyond having
a position (`most_profitable` is absent exactly when there is none). -/
theorem calculate_token_pnl_spec (token_txs : List TokenTx) (address : String)
    (days : Option Nat) (now : Int) :
    (∀ token p,
        alookup (enginePositions address (cutoffTime now days) token_txs) token = some p →
        p.buy_value = inboundTotal address (cutoffTime now days) token_txs token ∧
        p.sell_value = outboundTotal address (cutoffTime now days) token_txs token) ∧
    (calculate_token_pnl token_txs address days now).total_pnl =
      sumWith pnlOf (enginePositions address (cutoffTime now days) token_txs) ∧
    (calculate_token_pnl token_txs address days now).total_pnl =
      signedFlowSum address (cutoffTime now days) token_txs ∧
    (∀ mp, (calculate_token_pnl token_txs address days now).most_profitable = some mp →
        (∃ kv ∈ enginePositions address (cutoffTime now days) token_txs,
            kv.2.sell_value - kv.2.buy_value = mp.pnl ∧ mp.token = kv.2.symbol ∧
            mp.hold_days = evmHoldDays kv.2) ∧
        ∀ kv ∈ enginePositions address (cutoffTime now days) token_txs,
          kv.2.sell_value - kv.2.buy_value ≤ mp.pnl) ∧
    ((calculate_token_pnl token_txs address days now).most_profitable = none ↔
      enginePositions address (cutoffTime now days) token_txs = []) := by
  have htot : (calculate_token_pnl token_txs address days now).total_pnl =
      sumWith pnlOf (enginePositions address (cutoffTime now days) token_txs) := by
    show ((enginePositions address (cutoffTime now days) token_txs).foldl pnlStep
      (0, none, none)).1 = _
    rw [pnlPass_fst]
    ring
  have hmp : (calculate_token_pnl token_txs address days now).most_profitable =
      (selGen (fun _ => true) (fun kv => pnlOf kv.2)
        (fun kv => ⟨kv.2.symbol, pnlOf kv.2, evmHoldDays kv.2⟩) (none, none)
        (enginePositions address (cutoffTime now days) token_txs)).2 := by
    show ((enginePositions address (cutoffTime now days) token_txs).foldl pnlStep
      (0, none, none)).2.2 = _
    rw [pnlPass_eq_selGen]
  refine ⟨?_, htot, ?_, ?_, ?_⟩
  · intro token p hp
    rw [alookup_enginePositions] at hp
    cases hfl : tokenTxsOf (cutoffTime now days) token token_txs with
    | nil =>
      rw [hfl] at hp
      simp [posOf] at hp
    | cons f rest =>
      rw [hfl] at hp
      simp only [posOf, Option.some.injEq] at hp
      rw [← hp]
      exact ⟨by simp [inboundTotal, hfl], by simp [outboundTotal, hfl]⟩
  · rw [htot, sumWith_enginePositions]
  · intro mp hsome
    rcases selGen_char (fun _ => true) (fun kv => pnlOf kv.2)
        (fun kv => ⟨kv.2.symbol, pnlOf kv.2, evmHoldDays kv.2⟩)
        (enginePositions address (cutoffTime now days) token_txs) with
      ⟨hv, _⟩ | ⟨b, hbm, _, hv, hmax⟩
    · rw [hmp, hv] at hsome
      simp at hsome
    · rw [hmp, hv] at hsome
      have hmpeq : mp = ⟨b.2.symbol, pnlOf b.2, evmHoldDays b.2⟩ := by
        simpa using hsome.symm

      refine ⟨⟨b, hbm, ?_, ?_, ?_⟩, ?_⟩
      · rw [hmpeq]
        rfl
      · rw [hmpeq]
      · rw [hmpeq]
      · intro kv hkv
        rw [hmpeq]
        exact hmax kv hkv rfl
  · constructor
    · intro hn
      rcases selGen_char (fun _ => true) (fun kv => pnlOf kv.2)
          (fun kv => ⟨kv.2.symbol, pnlOf kv.2, evmHoldDays kv.2⟩)
          (enginePositions address (cutoffTime now days) token_txs) with
        ⟨_, hall⟩ | ⟨b, hbm, _, hv, _⟩
      · exact List.eq_nil_iff_forall_not_mem.2 (fun b hb => by simpa using hall b hb)
      · rw [hmp, hv] at hn
        simp at hn
    · intro hnil
      rw [hmp, hnil]
      rfl

/-- C1 witness: the amended theorem applied to a concrete one-event history. -/
theorem calculate_token_pnl_spec_witness :
    tokBuyOnlyPos.buy_value = inboundTotal "a" (cutoffTime 0 none) [tokBuyTx] "T" := by
  have hlook : alookup (enginePositions "a" (cutoffTime 0 none) [tokBuyTx]) "T" =
      some tokBuyOnlyPos := by
    have hb : isBuy "a" tokBuyTx = true := by decide
    have hk : keptTx (cutoffTime 0 none) tokBuyTx = true := by decide
    have hc : (tokBuyTx.contractAddress == "T") = true := by decide
    have hv : scaledValue tokBuyTx = 5 := by norm_num [scaledValue, tokBuyTx]
    have e2 : tokBuyTx.tokenSymbol = "TKN" := rfl
    have e3 : tokBuyTx.timeStamp = 0 := rfl
    norm_num [enginePositions, engineState, stepTx, hk, processTx, applyTx, emptyPos,
      alookup, aset, hb, hv, hc, e2, e3, tokBuyOnlyPos]
  exact ((calculate_token_pnl_spec [tokBuyTx] "a" none 0).1 "T" tokBuyOnlyPos hlook).1

/-- C10: in the EVM engine an event is classified as a buy exactly when its
recipient equals the analyzed address case-insensitively; in every other
case it is a sell, incrementing `sell_value` and decrementing `amount`
while leaving `buy_value` unchanged, and this includes transfers where the
analyzed address is neither sender nor recipient. -/
theorem buy_sell_classification (address : String) (tx : TokenTx)
    (ps : List (String × TokenPosition)) :
    (isBuy address tx = true ↔ lowerStr tx.toAddr = lowerStr address) ∧
    (isBuy address tx = false →
      (applyTx address ((alookup ps tx.contractAddress).getD (emptyPos tx)) tx).sell_value =
        ((alookup ps tx.contractAddress).getD (emptyPos tx)).sell_value + scaledValue tx ∧
      (applyTx address ((alookup ps tx.contractAddress).getD (emptyPos tx)) tx).amount =
        ((alookup ps tx.contractAddress).getD (emptyPos tx)).amount - scaledValue tx ∧
      (applyTx address ((alookup ps tx.contractAddress).getD (emptyPos tx)) tx).buy_value =
        ((alookup ps tx.contractAddress).getD (emptyPos tx)).buy_value) ∧
    (lowerStr tx.sender ≠ lowerStr address → lowerStr tx.toAddr ≠ lowerStr address →
      isBuy address tx = false) := by
  refine ⟨?_, ?_, ?_⟩
  · simp [isBuy]
  · intro h
    simp [applyTx, h]
  · intro _ hto
    simp [isBuy]
    exact hto

/-- C10 witness: a transfer between two third parties is classified as a
sell for the analyzed address. -/
theorem buy_sell_classification_witness :
    isBuy "a" tokThirdPartyTx = false := by
  exact (buy_sell_classification "a" tokThirdPartyTx []).2.2 (by decide) (by decide)

/-! ### Solana detailed analysis
(`WalletAnalyzer.analyze_solana_transactions_detailed`, bot.py lines 215-343)

One Helius enhanced transaction carries token-transfer and native-transfer
sub-records plus a provider-classified type. -/

structure SolTokenTransfer where
  mint : String
  tokenAmount : ℚ
  fromUserAccount : String
  toUserAccount : String
  tokenSymbol : Option String
  symbol : Option String
  deriving DecidableEq

structure SolNativeTransfer where
  amount : ℚ
  fromUserAccount : String
  toUserAccount : String
  deriving DecidableEq

structure SolTx where
  timestamp : Int
  tokenTransfers : List SolTokenTransfer
  nativeTransfers : List SolNativeTransfer
  txType : String
  deriving DecidableEq

/-- One entry of the `token_balances` defaultdict: `in`, `out`, first/last
seen and the running symbol, with the defaultdict initial value below. -/
structure TokenBalance where
  inAmt : ℚ
  outAmt : ℚ
  first_time : Option Int
  last_time : Option Int
  symbol : String
  deriving DecidableEq

/-- Models the `defaultdict(lambda: .. in 0, out 0, first None, last None, UNKNOWN ..)`
(bot.py line 244). -/
def defaultBal : TokenBalance :=
  { inAmt := 0, outAmt := 0, first_time := none, last_time := none, symbol := "UNKNOWN" }

/-- Python truthiness of an optional string: None and the empty string are
falsy. -/
def truthy : Option String → Option String
  | some s => if s == "" then none else some s
  | none => none

/-- Models `transfer.get( tokenSymbol ) or transfer.get( symbol )` followed by the
`if symbol:` truthiness check (bot.py lines 269, 273, 278). -/
def transferSymbol (tr : SolTokenTransfer) : Option String :=
  match truthy tr.tokenSymbol with
  | some s => some s
  | none => truthy tr.symbol

/-- Processing of one token-transfer sub-record (bot.py lines 262-282):
`from == address` accumulates `out` and overwrites `last_time`;
otherwise `to == address` accumulates `in`, sets `first_time` when unset
and overwrites `last_time`; both keep the last truthy symbol seen. -/
def procTokenTransfer (address : String) (t : Int)
    (bs : List (String × TokenBalance)) (tr : SolTokenTransfer) :
    List (String × TokenBalance) :=
  if tr.fromUserAccount == address then
    let b0 := (alookup bs tr.mint).getD defaultBal
    aset bs tr.mint
      { b0 with
        outAmt := b0.outAmt + tr.tokenAmount,
        symbol := (transferSymbol tr).getD b0.symbol,
        last_time := some t }
  else if tr.toUserAccount == address then
    let b0 := (alookup bs tr.mint).getD defaultBal
    aset bs tr.mint
      { b0 with
        inAmt := b0.inAmt + tr.tokenAmount,
        symbol := (transferSymbol tr).getD b0.symbol,
        first_time := if b0.first_time.isNone then some t else b0.first_time,
        last_time := some t }
  else bs

/-- Processing of one native-transfer sub-record (bot.py lines 286-294):
lamports are divided by 1e9, `from == address` adds to `sol_out`,
otherwise `to == address` adds to `sol_in`. -/
def procNativeTransfer (address : String) (p : ℚ × ℚ) (tr : SolNativeTransfer) : ℚ × ℚ :=
  if tr.fromUserAccount == address then (p.1, p.2 + tr.amount / 1000000000)
  else if tr.toUserAccount == address then (p.1 + tr.amount / 1000000000, p.2)
  else p

structure SolState where
  balances : List (String × TokenBalance)
  sol_in : ℚ
  sol_out : ℚ
  swap_count : Nat
  deriving DecidableEq

/-- One loop iteration over a Helius transaction (bot.py lines 251-299):
skip when `tx_time < cutoff`, else fold the token transfers, the native
transfers, and count the transaction as a swap when its type is SWAP or
TRADE. -/
def procSolTx (address : String) (cutoff : Int) (st : SolState) (tx : SolTx) : SolState :=
  if decide (tx.timestamp < cutoff) then st
  else
    { balances := tx.tokenTransfers.foldl (procTokenTransfer address tx.timestamp) st.balances,
      sol_in := (tx.nativeTransfers.foldl (procNativeTransfer address) (st.sol_in, st.sol_out)).1,
      sol_out := (tx.nativeTransfers.foldl (procNativeTransfer address) (st.sol_in, st.sol_out)).2,
      swap_count := if tx.txType == "SWAP" || tx.txType == "TRADE" then st.swap_count + 1
        else st.swap_count }

/-- The accumulation pass of the detailed Solana analysis. -/
def solAccumulate (address : String) (cutoff : Int) (txs : List SolTx) : SolState :=
  txs.foldl (procSolTx address cutoff)
    { balances := [], sol_in := 0, sol_out := 0, swap_count := 0 }

/-! #### Spec-side sums for the Solana accumulation -/

def keptSolTx (cutoff : Int) (tx : SolTx) : Bool := !decide (tx.timestamp < cutoff)

/-- A sub-record credited as inbound for `mint`: the `elif` branch, so the
sender must differ from the address. -/
def inboundTransfer (address mint : String) (tr : SolTokenTransfer) : Bool :=
  !(tr.fromUserAccount == address) && tr.toUserAccount == address && tr.mint == mint

def outboundTransfer (address mint : String) (tr : SolTokenTransfer) : Bool :=
  tr.fromUserAccount == address && tr.mint == mint

def txTokenIn (address mint : String) (tx : SolTx) : ℚ :=
  ((tx.tokenTransfers.filter (inboundTransfer address mint)).map SolTokenTransfer.tokenAmount).sum

def txTokenOut (address mint : String) (tx : SolTx) : ℚ :=
  ((tx.tokenTransfers.filter (outboundTransfer address mint)).map SolTokenTransfer.tokenAmount).sum

def solTokenInTotal (address : String) (cutoff : Int) (txs : List SolTx) (mint : String) : ℚ :=
  ((txs.filter (keptSolTx cutoff)).map (txTokenIn address mint)).sum

def solTokenOutTotal (address : String) (cutoff : Int) (txs : List SolTx) (mint : String) : ℚ :=
  ((txs.filter (keptSolTx cutoff)).map (txTokenOut address mint)).sum

def hasInbound (address mint : String) (tx : SolTx) : Bool :=
  tx.tokenTransfers.any (inboundTransfer address mint)

def nativeInbound (address : String) (tr : SolNativeTransfer) : Bool :=
  !(tr.fromUserAccount == address) && tr.toUserAccount == address

def nativeOutbound (address : String) (tr : SolNativeTransfer) : Bool :=
  tr.fromUserAccount == address

def txNativeIn (address : String) (tx : SolTx) : ℚ :=
  ((tx.nativeTransfers.filter (nativeInbound address)).map
    (fun tr => tr.amount / 1000000000)).sum

def txNativeOut (address : String) (tx : SolTx) : ℚ :=
  ((tx.nativeTransfers.filter (nativeOutbound address)).map
    (fun tr => tr.amount / 1000000000)).sum

def balIn (bs : List (String × TokenBalance)) (mint : String) : ℚ :=
  ((alookup bs mint).getD defaultBal).inAmt

def balOut (bs : List (String × TokenBalance)) (mint : String) : ℚ :=
  ((alookup bs mint).getD defaultBal).outAmt

def balFirst (bs : List (String × TokenBalance)) (mint : String) : Option Int :=
  ((alookup bs mint).getD defaultBal).first_time

theorem balIn_procTokenTransfer (address : String) (t : Int) (mint : String)
    (bs : List (String × TokenBalance)) (tr : SolTokenTransfer) :
    balIn (procTokenTransfer address t bs tr) mint =
      balIn bs mint + (if inboundTransfer address mint tr then tr.tokenAmount else 0) := by
  by_cases hm : tr.mint = mint
  · unfold procTokenTransfer
    by_cases hf : tr.fromUserAccount == address
    · have : inboundTransfer address mint tr = false := by
        simp [inboundTransfer, hf]
      simp [hf, this, balIn, hm, alookup_aset_self]
    · by_cases ht : tr.toUserAccount == address
      · have : inboundTransfer address mint tr = true := by
          simp only [inboundTransfer, hf, ht, hm]
          simp
        simp [hf, ht, this, balIn, hm, alookup_aset_self]
      · have : inboundTransfer address mint tr = false := by
          simp [inboundTransfer, hf, ht]
        simp [hf, ht, this, balIn]
  · have : inboundTransfer address mint tr = false := by
      simp [inboundTransfer, hm]
    unfold procTokenTransfer
    by_cases hf : tr.fromUserAccount == address
    · simp [hf, this, balIn, alookup_aset_ne _ _ _ _ (fun he => hm he.symm)]
    · by_cases ht : tr.toUserAccount == address
      · simp [hf, ht, this, balIn, alookup_aset_ne _ _ _ _ (fun he => hm he.symm)]
      · simp [hf, ht, this, balIn]

theorem balOut_procTokenTransfer (address : String) (t : Int) (mint : String)
    (bs : List (String × TokenBalance)) (tr : SolTokenTransfer) :
    balOut (procTokenTransfer address t bs tr) mint =
      balOut bs mint + (if outboundTransfer address mint tr then tr.tokenAmount else 0) := by
  by_cases hm : tr.mint = mint
  · unfold procTokenTransfer
    by_cases hf : tr.fromUserAccount == address
    · have : outboundTransfer address mint tr = true := by
        simp only [outboundTransfer, hf, hm]
        simp
      simp [hf, this, balOut, hm, alookup_aset_self]
    · have : outboundTransfer address mint tr = false := by
        simp [outboundTransfer, hf]
      by_cases ht : tr.toUserAccount == address
      · simp [hf, ht, this, balOut, hm, alookup_aset_self]
      · simp [hf, ht, this, balOut]
  · have : outboundTransfer address mint tr = false := by
      simp [outboundTransfer, hm]
    unfold procTokenTransfer
    by_cases hf : tr.fromUserAccount == address
    · simp [hf, this, balOut, alookup_aset_ne _ _ _ _ (fun he => hm he.symm)]
    · by_cases ht : tr.toUserAccount == address
      · simp [hf, ht, this, balOut, alookup_aset_ne _ _ _ _ (fun he => hm he.symm)]
      · simp [hf, ht, this, balOut]

theorem balFirst_procTokenTransfer (address : String) (t : Int) (mint : String)
    (bs : List (String × TokenBalance)) (tr : SolTokenTransfer) :
    balFirst (procTokenTransfer address t bs tr) mint =
      match balFirst bs mint with
      | some f => some f
      | none => if inboundTransfer address mint tr then some t else none := by
  by_cases hm : tr.mint = mint
  · unfold procTokenTransfer
    by_cases hf : tr.fromUserAccount == address
    · have : inboundTransfer address mint tr = false := by
        simp [inboundTransfer, hf]
      simp only [hf, if_true, this, balFirst, hm, alookup_aset_self, Option.getD_some]
      cases hb : ((alookup bs mint).getD defaultBal).first_time <;> simp [hb]
    · by_cases ht : tr.toUserAccount == address
      · have : inboundTransfer address mint tr = true := by
          simp only [inboundTransfer, hf, ht, hm]
          simp
        simp only [hf, ht, if_true, if_false, Bool.false_eq_true, this, balFirst, hm,
          alookup_aset_self, Option.getD_some]
        cases hb : ((alookup bs mint).getD defaultBal).first_time <;> simp [hb]
      · have : inboundTransfer address mint tr = false := by
          simp [inboundTransfer, hf, ht]
        simp only [hf, ht, if_false, Bool.false_eq_true, this, balFirst]
        cases hb : ((alookup bs mint).getD defaultBal).first_time <;> simp [hb]
  · have : inboundTransfer address mint tr = false := by
      simp [inboundTransfer, hm]
    unfold procTokenTransfer
    have hne := fun he : mint = tr.mint => hm he.symm
    by_cases hf : tr.fromUserAccount == address
    · simp only [hf, if_true, this, balFirst, alookup_aset_ne _ _ _ _ hne]
      cases hb : ((alookup bs mint).getD defaultBal).first_time <;> simp [hb]
    · by_cases ht : tr.toUserAccount == address
      · simp only [hf, ht, if_true, if_false, Bool.false_eq_true, this, balFirst,
          alookup_aset_ne _ _ _ _ hne]
        cases hb : ((alookup bs mint).getD defaultBal).first_time <;> simp [hb]
      · simp only [hf, ht, if_false, Bool.false_eq_true, this, balFirst]
        cases hb : ((alookup bs mint).getD defaultBal).first_time <;> simp [hb]

theorem balIn_foldTransfers (address : String) (t : Int) (mint : String)
    (l : List SolTokenTransfer) :
    ∀ bs, balIn (l.foldl (procTokenTransfer address t) bs) mint =
      balIn bs mint +
        ((l.filter (inboundTransfer address mint)).map SolTokenTransfer.tokenAmount).sum := by
  induction l with
  | nil => intro bs; simp
  | cons tr rest ih =>
    intro bs
    rw [List.foldl_cons, ih, balIn_procTokenTransfer]
    by_cases h : inboundTransfer address mint tr
    · simp [h]
      ring
    · simp [h]

theorem balOut_foldTransfers (address : String) (t : Int) (mint : String)
    (l : List SolTokenTransfer) :
    ∀ bs, balOut (l.foldl (procTokenTransfer address t) bs) mint =
      balOut bs mint +
        ((l.filter (outboundTransfer address mint)).map SolTokenTransfer.tokenAmount).sum := by
  induction l with
  | nil => intro bs; simp
  | cons tr rest ih =>
    intro bs
    rw [List.foldl_cons, ih, balOut_procTokenTransfer]
    by_cases h : outboundTransfer address mint tr
    · simp [h]
      ring
    · simp [h]

theorem balFirst_foldTransfers (address : String) (t : Int) (mint : String)
    (l : List SolTokenTransfer) :
    ∀ bs, balFirst (l.foldl (procTokenTransfer address t) bs) mint =
      match balFirst bs mint with
      | some f => some f
      | none => if l.any (inboundTransfer address mint) then some t else none := by
  induction l with
  | nil =>
    intro bs
    cases hb : balFirst bs mint <;> simp [hb]
  | cons tr rest ih =>
    intro bs
    rw [List.foldl_cons, ih, balFirst_procTokenTransfer]
    cases hb : balFirst bs mint with
    | some f => simp
    | none =>
      by_cases h : inboundTransfer address mint tr <;> simp [h]

theorem foldl_procNativeTransfer (address : String) (l : List SolNativeTransfer) :
    ∀ p : ℚ × ℚ, l.foldl (procNativeTransfer address) p =
      (p.1 + ((l.filter (nativeInbound address)).map (fun tr => tr.amount / 1000000000)).sum,
       p.2 + ((l.filter (nativeOutbound address)).map (fun tr => tr.amount / 1000000000)).sum) := by
  induction l with
  | nil => intro p; simp
  | cons tr rest ih =>
    intro p
    rw [List.foldl_cons, ih]
    unfold procNativeTransfer
    by_cases hf : tr.fromUserAccount == address
    · have h1 : nativeInbound address tr = false := by simp [nativeInbound, hf]
      have h2 : nativeOutbound address tr = true := by simp [nativeOutbound, hf]
      simp only [hf, if_true, h1, h2, List.filter_cons, Bool.false_eq_true, if_false,
        List.map_cons, List.sum_cons]
      refine Prod.ext rfl ?_
      simp only []
      ring
    · by_cases ht : tr.toUserAccount == address
      · have h1 : nativeInbound address tr = true := by simp [nativeInbound, hf, ht]
        have h2 : nativeOutbound address tr = false := by simp [nativeOutbound, hf]
        simp only [hf, ht, if_true, if_false, Bool.false_eq_true, h1, h2, List.filter_cons,
          List.map_cons, List.sum_cons]
        refine Prod.ext ?_ rfl
        simp only []
        ring
      · have h1 : nativeInbound address tr = false := by simp [nativeInbound, hf, ht]
        have h2 : nativeOutbound address tr = false := by simp [nativeOutbound, hf]
        simp only [hf, ht, if_false, Bool.false_eq_true, h1, h2, List.filter_cons]

/-- Full characterization of the Solana accumulation: per-mint inbound and
outbound sums, first-seen (timestamp of the first kept transaction carrying
an inbound transfer of the mint, none when there is none), and native
in/out totals. -/
theorem solAccumulate_char (address : String) (cutoff : Int) (txs : List SolTx)
    (mint : String) :
    balIn (solAccumulate address cutoff txs).balances mint =
        solTokenInTotal address cutoff txs mint ∧
    balOut (solAccumulate address cutoff txs).balances mint =
        solTokenOutTotal address cutoff txs mint ∧
    balFirst (solAccumulate address cutoff txs).balances mint =
        (((txs.filter (keptSolTx cutoff)).filter (hasInbound address mint)).head?).map
          SolTx.timestamp ∧
    (solAccumulate address cutoff txs).sol_in =
        ((txs.filter (keptSolTx cutoff)).map (txNativeIn address)).sum ∧
    (solAccumulate address cutoff txs).sol_out =
        ((txs.filter (keptSolTx cutoff)).map (txNativeOut address)).sum := by
  induction txs using List.reverseRecOn with
  | nil =>
    simp [solAccumulate, solTokenInTotal, solTokenOutTotal, balIn, balOut, balFirst,
      alookup, defaultBal]
  | append_singleton l x ih =>
    have hfold : solAccumulate address cutoff (l ++ [x]) =
        procSolTx address cutoff (solAccumulate address cutoff l) x := by
      simp [solAccumulate, List.foldl_append]
    obtain ⟨ih1, ih2, ih3, ih4, ih5⟩ := ih
    by_cases hkept : keptSolTx cutoff x
    · have hdec : decide (x.timestamp < cutoff) = false := by
        simpa [keptSolTx] using hkept
      have hfl : (l ++ [x]).filter (keptSolTx cutoff) = l.filter (keptSolTx cutoff) ++ [x] := by
        simp [List.filter_append, hkept]
      rw [hfold]
      unfold procSolTx
      rw [hdec]
      simp only [Bool.false_eq_true, if_false]
      refine ⟨?_, ?_, ?_, ?_, ?_⟩
      · rw [balIn_foldTransfers, ih1]
        simp [solTokenInTotal, hfl, txTokenIn]
      · rw [balOut_foldTransfers, ih2]
        simp [solTokenOutTotal, hfl, txTokenOut]
      · rw [balFirst_foldTransfers, ih3]
        rw [hfl, List.filter_append]
        cases hold : (l.filter (keptSolTx cutoff)).filter (hasInbound address mint) with
        | nil =>
          simp only [hold, List.nil_append, List.filter_cons]
          by_cases hin : hasInbound address mint x
          · have hany : x.tokenTransfers.any (inboundTransfer address mint) = true := hin
            simp [hin, hany]
          · have hfalse : hasInbound address mint x = false := Bool.eq_false_iff.2 hin
            have hany : x.tokenTransfers.any (inboundTransfer address mint) = false := hfalse
            simp [hfalse, hany]
        | cons y t2 =>
          simp [hold]
      · rw [foldl_procNativeTransfer, ih4]
        simp [hfl, txNativeIn]
      · rw [foldl_procNativeTransfer, ih5]
        simp [hfl, txNativeOut]
    · have hdec : decide (x.timestamp < cutoff) = true := by
        simpa [keptSolTx] using hkept
      have hfl : (l ++ [x]).filter (keptSolTx cutoff) = l.filter (keptSolTx cutoff) := by
        simp only [List.filter_append]
        simp [Bool.eq_false_iff.2 hkept]
      have e1 : solTokenInTotal address cutoff (l ++ [x]) mint =
          solTokenInTotal address cutoff l mint := by
        simp [solTokenInTotal, hfl]
      have e2 : solTokenOutTotal address cutoff (l ++ [x]) mint =
          solTokenOutTotal address cutoff l mint := by
        simp [solTokenOutTotal, hfl]
      rw [hfold]
      unfold procSolTx
      rw [hdec]
      simp only [if_true]
      rw [hfl, e1, e2]
      exact ⟨ih1, ih2, ih3, ih4, ih5⟩

/-! ### Solana most-profitable selection (bot.py lines 311-324) -/

/-- Models `hold_days = (last - first).days if first and last else 0`
(bot.py lines 316-318). -/
def solHoldDays (b : TokenBalance) : Int :=
  match b.first_time, b.last_time with
  | some f, some l => Int.fdiv (l - f) 86400
  | _, _ => 0

/-- The selection loop over `token_balances.items()`:
`profit = in - out`, updated on `profit > max_token_profit and in > 0`. -/
def solMostProfitable (bs : List (String × TokenBalance)) : Option MostProfitable :=
  (selGen (fun kv => decide (0 < kv.2.inAmt)) (fun kv => kv.2.inAmt - kv.2.outAmt)
    (fun kv => ⟨kv.2.symbol, kv.2.inAmt - kv.2.outAmt, solHoldDays kv.2⟩) (none, none) bs).2

/-- C5: the Solana most-profitable token maximizes inbound minus outbound
over exactly the balances with inbound strictly positive; zero-inbound
balances are never selected; the result is absent exactly when no balance
has positive inbound, so whenever one does a token is returned even if all
eligible profits are negative. -/
theorem sol_most_profitable_spec (bs : List (String × TokenBalance)) :
    (solMostProfitable bs = none ↔ ∀ kv ∈ bs, ¬(0 < kv.2.inAmt)) ∧
    (∀ mp, solMostProfitable bs = some mp →
      (∃ kv ∈ bs, 0 < kv.2.inAmt ∧ mp.token = kv.2.symbol ∧
        mp.pnl = kv.2.inAmt - kv.2.outAmt ∧ mp.hold_days = solHoldDays kv.2) ∧
      ∀ kv ∈ bs, 0 < kv.2.inAmt → kv.2.inAmt - kv.2.outAmt ≤ mp.pnl) := by
  have hchar := selGen_char (fun kv : String × TokenBalance => decide (0 < kv.2.inAmt))
    (fun kv => kv.2.inAmt - kv.2.outAmt)
    (fun kv => ⟨kv.2.symbol, kv.2.inAmt - kv.2.outAmt, solHoldDays kv.2⟩) bs
  constructor
  · constructor
    · intro hn kv hkv hpos
      rcases hchar with ⟨_, hall⟩ | ⟨b, _, _, hv, _⟩
      · have := hall kv hkv
        simp at this
        exact absurd hpos (not_lt.2 this)
      · unfold solMostProfitable at hn
        rw [hv] at hn
        simp at hn
    · intro hall
      rcases hchar with ⟨hv, _⟩ | ⟨b, hbm, hbel, _, _⟩
      · unfold solMostProfitable
        rw [hv]
      · simp only [decide_eq_true_eq] at hbel
        exact absurd hbel (hall b hbm)
  · intro mp hmp
    rcases hchar with ⟨hv, _⟩ | ⟨b, hbm, hbel, hv, hmax⟩
    · unfold solMostProfitable at hmp
      rw [hv] at hmp
      simp at hmp
    · unfold solMostProfitable at hmp
      rw [hv] at hmp
      have hmpeq : mp = ⟨b.2.symbol, b.2.inAmt - b.2.outAmt, solHoldDays b.2⟩ := by
        simpa using hmp.symm
      simp only [decide_eq_true_eq] at hbel
      refine ⟨⟨b, hbm, hbel, ?_, ?_, ?_⟩, ?_⟩
      · rw [hmpeq]
      · rw [hmpeq]
      · rw [hmpeq]
      · intro kv hkv hpos
        rw [hmpeq]
        exact hmax kv hkv (by simpa using hpos)

/-- Concrete Solana balances: an eligible token and an outbound-only one. -/
def solBalA : TokenBalance :=
  { inAmt := 5, outAmt := 2, first_time := some 0, last_time := some 86400, symbol := "AAA" }

def solBalB : TokenBalance :=
  { inAmt := 0, outAmt := 3, first_time := none, last_time := some 0, symbol := "BBB" }

def solFixtureBalances : List (String × TokenBalance) := [("mA", solBalA), ("mB", solBalB)]

/-- C5 witness: the theorem applied to the concrete balances above. -/
theorem sol_most_profitable_spec_witness :
    solBalA.inAmt - solBalA.outAmt ≤ (3 : ℚ) := by
  have hf1 : Int.fdiv ((86400 : Int) - 0) 86400 = 1 := by decide
  have hf2 : Int.fdiv (86400 : Int) 86400 = 1 := by decide
  have hmp : solMostProfitable solFixtureBalances = some ⟨"AAA", 3, 1⟩ := by
    norm_num [solMostProfitable, selGen, selStep, solFixtureBalances, solBalA, solBalB,
      solHoldDays, hf1, hf2]
  exact ((sol_most_profitable_spec solFixtureBalances).2 ⟨"AAA", 3, 1⟩ hmp).2
    ("mA", solBalA) (by simp [solFixtureBalances]) (by norm_num [solBalA])

/-! ### C4: order independence of the accumulation -/

def posBuyValue (address : String) (cutoff : Int) (txs : List TokenTx) (token : String) : ℚ :=
  match alookup (enginePositions address cutoff txs) token with
  | some p => p.buy_value
  | none => 0

def posSellValue (address : String) (cutoff : Int) (txs : List TokenTx) (token : String) : ℚ :=
  match alookup (enginePositions address cutoff txs) token with
  | some p => p.sell_value
  | none => 0

theorem posBuyValue_eq_inboundTotal (address : String) (cutoff : Int) (txs : List TokenTx)
    (token : String) :
    posBuyValue address cutoff txs token = inboundTotal address cutoff txs token := by
  unfold posBuyValue
  rw [alookup_enginePositions]
  cases hfl : tokenTxsOf cutoff token txs with
  | nil => simp [posOf, inboundTotal, hfl, inboundSum]
  | cons f rest => simp [posOf, inboundTotal, hfl]

theorem posSellValue_eq_outboundTotal (address : String) (cutoff : Int) (txs : List TokenTx)
    (token : String) :
    posSellValue address cutoff txs token = outboundTotal address cutoff txs token := by
  unfold posSellValue
  rw [alookup_enginePositions]
  cases hfl : tokenTxsOf cutoff token txs with
  | nil => simp [posOf, outboundTotal, hfl, outboundSum]
  | cons f rest => simp [posOf, outboundTotal, hfl]

theorem total_pnl_eq_signedFlowSum (txs : List TokenTx) (address : String)
    (days : Option Nat) (now : Int) :
    (calculate_token_pnl txs address days now).total_pnl =
      signedFlowSum address (cutoffTime now days) txs := by
  show ((enginePositions address (cutoffTime now days) txs).foldl pnlStep (0, none, none)).1 = _
  rw [pnlPass_fst, sumWith_enginePositions]
  ring

/-- C4: permuting the event stream leaves the EVM engine total and every
per-token cumulative inbound and outbound sum unchanged, and likewise the
Solana per-mint in/out sums and net native flow; only first/last-seen data
can differ. -/
theorem accumulation_perm_invariant (address : String) (days : Option Nat) (now : Int)
    (cutoff : Int) (txs1 txs2 : List TokenTx) (stxs1 stxs2 : List SolTx)
    (hperm : txs1.Perm txs2) (hsperm : stxs1.Perm stxs2) :
    (calculate_token_pnl txs1 address days now).total_pnl =
      (calculate_token_pnl txs2 address days now).total_pnl ∧
    (∀ token, posBuyValue address cutoff txs1 token = posBuyValue address cutoff txs2 token ∧
      posSellValue address cutoff txs1 token = posSellValue address cutoff txs2 token) ∧
    (∀ mint, balIn (solAccumulate address cutoff stxs1).balances mint =
        balIn (solAccumulate address cutoff stxs2).balances mint ∧
      balOut (solAccumulate address cutoff stxs1).balances mint =
        balOut (solAccumulate address cutoff stxs2).balances mint) ∧
    (solAccumulate address cutoff stxs1).sol_in - (solAccumulate address cutoff stxs1).sol_out =
      (solAccumulate address cutoff stxs2).sol_in -
        (solAccumulate address cutoff stxs2).sol_out := by
  have hsolin : (solAccumulate address cutoff stxs1).sol_in =
      (solAccumulate address cutoff stxs2).sol_in := by
    rw [(solAccumulate_char address cutoff stxs1 "").2.2.2.1,
      (solAccumulate_char address cutoff stxs2 "").2.2.2.1]
    exact ((hsperm.filter (keptSolTx cutoff)).map (txNativeIn address)).sum_eq
  have hsolout : (solAccumulate address cutoff stxs1).sol_out =
      (solAccumulate address cutoff stxs2).sol_out := by
    rw [(solAccumulate_char address cutoff stxs1 "").2.2.2.2,
      (solAccumulate_char address cutoff stxs2 "").2.2.2.2]
    exact ((hsperm.filter (keptSolTx cutoff)).map (txNativeOut address)).sum_eq
  refine ⟨?_, ?_, ?_, ?_⟩
  · rw [total_pnl_eq_signedFlowSum, total_pnl_eq_signedFlowSum]
    exact ((hperm.filter (keptTx (cutoffTime now days))).map (signedFlow address)).sum_eq
  · intro token
    constructor
    · rw [posBuyValue_eq_inboundTotal, posBuyValue_eq_inboundTotal]
      unfold inboundTotal inboundSum tokenTxsOf
      exact (((hperm.filter _).filter _).map scaledValue).sum_eq
    · rw [posSellValue_eq_outboundTotal, posSellValue_eq_outboundTotal]
      unfold outboundTotal outboundSum tokenTxsOf
      exact (((hperm.filter _).filter _).map scaledValue).sum_eq
  · intro mint
    constructor
    · rw [(solAccumulate_char address cutoff stxs1 mint).1,
        (solAccumulate_char address cutoff stxs2 mint).1]
      unfold solTokenInTotal
      exact ((hsperm.filter _).map _).sum_eq
    · rw [(solAccumulate_char address cutoff stxs1 mint).2.1,
        (solAccumulate_char address cutoff stxs2 mint).2.1]
      unfold solTokenOutTotal
      exact ((hsperm.filter _).map _).sum_eq
  · rw [hsolin, hsolout]

/-- C4 witness: the theorem applied to a concrete two-event history and its
transposition. -/
theorem accumulation_perm_invariant_witness :
    (calculate_token_pnl [tokBuyTx, tokSellTx] "a" none 0).total_pnl =
      (calculate_token_pnl [tokSellTx, tokBuyTx] "a" none 0).total_pnl :=
  (accumulation_perm_invariant "a" none 0 0 [tokBuyTx, tokSellTx] [tokSellTx, tokBuyTx]
    [] [] (List.Perm.swap tokSellTx tokBuyTx []) (List.Perm.refl [])).1

/-! ### C9: first/last-seen bookkeeping and hold days -/

theorem fdiv_day_nonpos {a : Int} (h : a ≤ 0) : Int.fdiv a 86400 ≤ 0 := by
  rw [Int.fdiv_eq_ediv _ (by norm_num)]
  calc a.ediv 86400 ≤ Int.ediv 0 86400 := Int.ediv_le_ediv (by norm_num) h
  _ = 0 := by norm_num

/-- The position accumulated from the single event `tokBuyTx`. -/
theorem tokBuyTx_position :
    alookup (enginePositions "a" (cutoffTime 0 none) [tokBuyTx]) "T" = some tokBuyOnlyPos := by
  have hb : isBuy "a" tokBuyTx = true := by decide
  have hk : keptTx (cutoffTime 0 none) tokBuyTx = true := by decide
  have hc : (tokBuyTx.contractAddress == "T") = true := by decide
  have hv : scaledValue tokBuyTx = 5 := by norm_num [scaledValue, tokBuyTx]
  have e2 : tokBuyTx.tokenSymbol = "TKN" := rfl
  have e3 : tokBuyTx.timeStamp = 0 := rfl
  norm_num [enginePositions, engineState, stepTx, hk, processTx, applyTx, emptyPos,
    alookup, aset, hb, hv, hc, e2, e3, tokBuyOnlyPos]

/-- C9: a position records as first-seen the timestamp of the first kept
event for its token in iteration order and as last-seen the timestamp of
the last kept event in iteration order (each event overwrites it); the
reported hold days is the floor division by one day of last-seen minus
first-seen, so on a descending-by-time list (the order the adapters fetch)
it is non-positive; in the Solana engine first-seen is set by the first
kept transaction carrying an inbound transfer of the mint, and a mint with
no inbound transfer keeps no first-seen. -/
theorem first_last_seen_spec (address : String) (days : Option Nat) (now : Int)
    (txs : List TokenTx) (stxs : List SolTx) :
    (∀ token p,
        alookup (enginePositions address (cutoffTime now days) txs) token = some p →
        (tokenTxsOf (cutoffTime now days) token txs).head?.map TokenTx.timeStamp =
          some p.first_trade ∧
        (tokenTxsOf (cutoffTime now days) token txs).getLast?.map TokenTx.timeStamp =
          some p.last_trade) ∧
    (∀ mp, (calculate_token_pnl txs address days now).most_profitable = some mp →
        ∃ kv ∈ enginePositions address (cutoffTime now days) txs,
          mp.hold_days = Int.fdiv (kv.2.last_trade - kv.2.first_trade) 86400) ∧
    (List.Pairwise (fun a b => b.timeStamp ≤ a.timeStamp) txs →
      ∀ token p,
        alookup (enginePositions address (cutoffTime now days) txs) token = some p →
        evmHoldDays p ≤ 0) ∧
    (∀ mint, balFirst (solAccumulate address (cutoffTime now days) stxs).balances mint =
        (((stxs.filter (keptSolTx (cutoffTime now days))).filter
          (hasInbound address mint)).head?).map SolTx.timestamp) := by
  refine ⟨?_, ?_, ?_, ?_⟩
  · intro token p hp
    rw [alookup_enginePositions] at hp
    cases hfl : tokenTxsOf (cutoffTime now days) token txs with
    | nil =>
      rw [hfl] at hp
      simp [posOf] at hp
    | cons f rest =>
      rw [hfl] at hp
      simp only [posOf, Option.some.injEq] at hp
      constructor
      · rw [← hp]
        simp
      · rw [← hp]
        simp [List.getLast?_eq_getLast (f :: rest) (List.cons_ne_nil f rest)]
  · intro mp hmp
    have hmp2 : (calculate_token_pnl txs address days now).most_profitable =
        (selGen (fun _ => true) (fun kv => pnlOf kv.2)
          (fun kv => ⟨kv.2.symbol, pnlOf kv.2, evmHoldDays kv.2⟩) (none, none)
          (enginePositions address (cutoffTime now days) txs)).2 := by
      show ((enginePositions address (cutoffTime now days) txs).foldl pnlStep
        (0, none, none)).2.2 = _
      rw [pnlPass_eq_selGen]
    have hchar := selGen_char (fun _ : String × TokenPosition => true) (fun kv => pnlOf kv.2)
      (fun kv => ⟨kv.2.symbol, pnlOf kv.2, evmHoldDays kv.2⟩)
      (enginePositions address (cutoffTime now days) txs)
    rcases hchar with ⟨hv, _⟩ | ⟨b, hbm, _, hv, _⟩
    · rw [hmp2, hv] at hmp
      simp at hmp
    · rw [hmp2, hv] at hmp
      have he : mp = ⟨b.2.symbol, pnlOf b.2, evmHoldDays b.2⟩ := by
        simpa using hmp.symm
      exact ⟨b, hbm, by rw [he]; rfl⟩
  · intro hsort token p hp
    rw [alookup_enginePositions] at hp
    cases hfl : tokenTxsOf (cutoffTime now days) token txs with
    | nil =>
      rw [hfl] at hp
      simp [posOf] at hp
    | cons f rest =>
      rw [hfl] at hp
      simp only [posOf, Option.some.injEq] at hp
      have hsub : (tokenTxsOf (cutoffTime now days) token txs).Sublist txs :=
        List.filter_sublist txs
      rw [hfl] at hsub
      have hpw : (f :: rest).Pairwise (fun a b => b.timeStamp ≤ a.timeStamp) :=
        hsort.sublist hsub
      have hle : ((f :: rest).getLast (List.cons_ne_nil f rest)).timeStamp ≤ f.timeStamp := by
        rcases List.mem_cons.1 (List.getLast_mem (List.cons_ne_nil f rest)) with he | hm
        · rw [he]
        · exact (List.pairwise_cons.1 hpw).1 _ hm
      have hfields : p.last_trade ≤ p.first_trade := by
        rw [← hp]
        simpa using hle
      show Int.fdiv (p.last_trade - p.first_trade) 86400 ≤ 0
      exact fdiv_day_nonpos (sub_nonpos.2 hfields)
  · intro mint
    exact (solAccumulate_char address (cutoffTime now days) stxs mint).2.2.1

/-- C9 witness: the theorem applied to a concrete one-event history, which
is trivially descending. -/
theorem first_last_seen_spec_witness :
    (tokenTxsOf (cutoffTime 0 none) "T" [tokBuyTx]).head?.map TokenTx.timeStamp =
      some tokBuyOnlyPos.first_trade ∧ evmHoldDays tokBuyOnlyPos ≤ 0 :=
  ⟨((first_last_seen_spec "a" none 0 [tokBuyTx] []).1 "T" tokBuyOnlyPos tokBuyTx_position).1,
    (first_last_seen_spec "a" none 0 [tokBuyTx] []).2.2.1 (by simp) "T" tokBuyOnlyPos
      tokBuyTx_position⟩

/-! ### C8: the 10-lookup metadata cap (bot.py lines 301-309, 175-213) -/

/-- Models `mint_address[:6] + ...` (bot.py lines 209, 213). -/
def truncatedPlaceholder (mint : String) : String := ⟨mint.data.take 6⟩ ++ "..."

/-- Models `get_solana_token_metadata` (bot.py lines 175-213): try the Jupiter
token list, then (when a Helius key is configured) the Helius DAS call,
falling back to the truncated mint address.  The two services are
abstracted as oracles returning the symbol field of a 200 response, `none`
for a non-200 response or a missing field; Python truthiness also discards
an empty symbol. -/
def get_solana_token_metadata (jupiterSym heliusSym : String → Option String)
    (hasHeliusKey : Bool) (mint : String) : String :=
  match truthy (jupiterSym mint) with
  | some s => s
  | none =>
    if hasHeliusKey then
      match truthy (heliusSym mint) with
      | some s => s
      | none => truncatedPlaceholder mint
    else truncatedPlaceholder mint

/-- Models `[mint for mint, data in token_balances.items() if data[symbol] ==
UNKNOWN and mint]` (bot.py lines 302-303). -/
def unknownMints (bs : List (String × TokenBalance)) : List String :=
  (bs.filter (fun kv => kv.2.symbol == "UNKNOWN" && !(kv.1 == ""))).map Prod.fst

/-- Models `unknown_tokens[:10]` (bot.py line 307). -/
def metadataTargets (bs : List (String × TokenBalance)) : List String :=
  (unknownMints bs).take 10

/-- The metadata loop: one lookup per target, writing the result into the
symbol of the target mint (bot.py lines 307-309). -/
def applyMetadata (lookup : String → String) (bs : List (String × TokenBalance)) :
    List (String × TokenBalance) :=
  (metadataTargets bs).foldl
    (fun acc mint => aset acc mint
      { (alookup acc mint).getD defaultBal with symbol := lookup mint }) bs

def balSymbol (bs : List (String × TokenBalance)) (mint : String) : String :=
  ((alookup bs mint).getD defaultBal).symbol

theorem alookup_applyMetadata_not_mem (lookup : String → String) (ms : List String) :
    ∀ (bs : List (String × TokenBalance)) (k : String), k ∉ ms →
      alookup (ms.foldl (fun acc mint => aset acc mint
        { (alookup acc mint).getD defaultBal with symbol := lookup mint }) bs) k =
      alookup bs k := by
  induction ms with
  | nil =>
    intro bs k _
    rfl
  | cons m rest ih =>
    intro bs k h
    have hne : k ≠ m := fun he => h (he ▸ List.mem_cons_self m rest)
    rw [List.foldl_cons, ih _ k (fun hm => h (List.mem_cons_of_mem _ hm)),
      alookup_aset_ne _ _ _ _ hne]

/-- C8 (amended): at most 10 metadata lookups are performed per analysis
call, and every unresolved token beyond the cap keeps the `UNKNOWN`
sentinel symbol (not a truncated-address placeholder: that placeholder is
produced only inside a lookup that was actually attempted and failed). -/
theorem metadata_cap_spec (bs : List (String × TokenBalance)) (lookup : String → String)
    (hnd : (bs.map Prod.fst).Nodup) :
    (metadataTargets bs).length ≤ 10 ∧
    ∀ mint ∈ (unknownMints bs).drop 10,
      balSymbol (applyMetadata lookup bs) mint = "UNKNOWN" := by
  constructor
  · have h := List.length_take 10 (unknownMints bs)
    unfold metadataTargets
    omega
  · intro mint hmint
    have hnodupU : (unknownMints bs).Nodup := by
      have hsub : ((bs.filter
          (fun kv => kv.2.symbol == "UNKNOWN" && !(kv.1 == ""))).map Prod.fst).Sublist
          (bs.map Prod.fst) := (List.filter_sublist bs).map Prod.fst
      exact hnd.sublist hsub
    have hdisj : mint ∉ metadataTargets bs := fun hmem =>
      List.disjoint_take_drop hnodupU (le_refl 10) hmem hmint
    have hlk : alookup (applyMetadata lookup bs) mint = alookup bs mint :=
      alookup_applyMetadata_not_mem lookup (metadataTargets bs) bs mint hdisj
    have hmem : mint ∈ unknownMints bs := by
      have := List.mem_of_mem_drop hmint
      exact this
    obtain ⟨kv, hkvmem, hkveq⟩ := List.mem_map.1 hmem
    have hkvfil := List.mem_filter.1 hkvmem
    have hsym : kv.2.symbol = "UNKNOWN" := by
      have hcond := hkvfil.2
      simp only [Bool.and_eq_true, beq_iff_eq] at hcond
      exact hcond.1
    have hlkbs : alookup bs mint = some kv.2 := by
      have hin : (mint, kv.2) ∈ bs := by
        rw [← hkveq, Prod.mk.eta]
        exact hkvfil.1
      exact alookup_of_mem_nodup hnd hin
    unfold balSymbol
    rw [hlk, hlkbs]
    simpa using hsym

def unknownBal : TokenBalance :=
  { inAmt := 1, outAmt := 0, first_time := some 0, last_time := some 0, symbol := "UNKNOWN" }

def elevenMints : List String :=
  ["mint01", "mint02", "mint03", "mint04", "mint05", "mint06", "mint07", "mint08",
   "mint09", "mint10", "mint11"]

/-- Eleven distinct tokens, all with unresolved symbols. -/
def elevenBalances : List (String × TokenBalance) := elevenMints.map (fun m => (m, unknownBal))

/-- C8 counterexample: with eleven unresolved tokens and every lookup
falling back to the truncated placeholder, the eleventh token keeps the
`UNKNOWN` sentinel, which is not the truncated-address placeholder the
claim promises. -/
theorem metadata_cap_placeholder_cex :
    balSymbol (applyMetadata
      (get_solana_token_metadata (fun _ => none) (fun _ => none) false) elevenBalances)
      "mint11" = "UNKNOWN" ∧
    truncatedPlaceholder "mint11" ≠ "UNKNOWN" ∧
    balSymbol (applyMetadata
      (get_solana_token_metadata (fun _ => none) (fun _ => none) false) elevenBalances)
      "mint01" = truncatedPlaceholder "mint01" := by
  refine ⟨by decide, by decide, by decide⟩

/-- C8 witness: the amended theorem applied to the eleven-token fixture. -/
theorem metadata_cap_spec_witness :
    (metadataTargets elevenBalances).length ≤ 10 ∧
    balSymbol (applyMetadata
      (get_solana_token_metadata (fun _ => none) (fun _ => none) false) elevenBalances)
      "mint11" = "UNKNOWN" := by
  have hnd : (elevenBalances.map Prod.fst).Nodup := by decide
  exact ⟨(metadata_cap_spec elevenBalances
      (get_solana_token_metadata (fun _ => none) (fun _ => none) false) hnd).1,
    (metadata_cap_spec elevenBalances
      (get_solana_token_metadata (fun _ => none) (fun _ => none) false) hnd).2 "mint11"
      (by decide)⟩

/-! ### C7: the price oracle (bot.py lines 39-95) -/

/-- A CoinGecko response as the oracle sees it: an HTTP status plus the
nested price field when present (the `.get` chains, which default to 0,
are modelled by `Option.getD 0`). -/
structure PriceResponse where
  status : Nat
  priceField : Option ℚ
  deriving DecidableEq

/-- Models the cache key, an f-string of asset tag and timestamp (bot.py lines 42, 71). -/
def priceCacheKey (asset : String) (timestamp : Option Int) : String :=
  asset ++ "_" ++ (match timestamp with | some t => toString t | none => "None")

/-- Models `get_sol_price` (bot.py lines 39-66): cached value if present, else the
parsed price of a 200 response (0 when the field is missing, and the value
is cached), else 0. -/
def get_sol_price (cache : List (String × ℚ)) (timestamp : Option Int)
    (resp : PriceResponse) : ℚ × List (String × ℚ) :=
  match alookup cache (priceCacheKey "sol" timestamp) with
  | some p => (p, cache)
  | none =>
    if resp.status == 200 then
      (resp.priceField.getD 0,
        aset cache (priceCacheKey "sol" timestamp) (resp.priceField.getD 0))
    else (0, cache)

/-- Models `get_eth_price` (bot.py lines 68-95), identical shape with the eth key. -/
def get_eth_price (cache : List (String × ℚ)) (timestamp : Option Int)
    (resp : PriceResponse) : ℚ × List (String × ℚ) :=
  match alookup cache (priceCacheKey "eth" timestamp) with
  | some p => (p, cache)
  | none =>
    if resp.status == 200 then
      (resp.priceField.getD 0,
        aset cache (priceCacheKey "eth" timestamp) (resp.priceField.getD 0))
    else (0, cache)

/-- C7: for either asset and any optional timestamp, a failed price fetch
(non-200 status or missing price field in the body) yields 0 rather than
an error; the functions are total, so no exception propagates. -/
theorem price_oracle_degrades_to_zero (cache : List (String × ℚ)) (timestamp : Option Int)
    (resp : PriceResponse)
    (hsol : alookup cache (priceCacheKey "sol" timestamp) = none)
    (heth : alookup cache (priceCacheKey "eth" timestamp) = none)
    (hfail : resp.status ≠ 200 ∨ resp.priceField = none) :
    (get_sol_price cache timestamp resp).1 = 0 ∧
    (get_eth_price cache timestamp resp).1 = 0 := by
  constructor
  · unfold get_sol_price
    rw [hsol]
    rcases hfail with hs | hp
    · have hb : (resp.status == 200) = false := beq_eq_false_iff_ne.2 hs
      simp [hb]
    · by_cases hst : resp.status == 200
      · simp [hst, hp]
      · simp [hst]
  · unfold get_eth_price
    rw [heth]
    rcases hfail with hs | hp
    · have hb : (resp.status == 200) = false := beq_eq_false_iff_ne.2 hs
      simp [hb]
    · by_cases hst : resp.status == 200
      · simp [hst, hp]
      · simp [hst]

def failedResponse : PriceResponse := { status := 500, priceField := none }

/-- C7 witness: a 500 response on an empty cache prices both assets at 0. -/
theorem price_oracle_degrades_to_zero_witness :
    (get_sol_price [] none failedResponse).1 = 0 ∧
    (get_eth_price [] none failedResponse).1 = 0 :=
  price_oracle_degrades_to_zero [] none failedResponse rfl rfl (Or.inl (by decide))

/-! ### C6: per-address error isolation in the batch
(`analyze_wallet` and `analyze_multiple_wallets`, bot.py lines 466-479) -/

/-- A per-address result dict: either a populated analysis or an
`error` entry.  The two chain adapters catch every exception internally
and return one of these, so they are abstracted as total functions. -/
inductive AnalysisOutcome where
  | ok (chain : String) (address : String) : AnalysisOutcome
  | err (msg : String) : AnalysisOutcome
  deriving DecidableEq

/-- Models `analyze_wallet` (bot.py lines 466-474): dispatch on the detected
chain, with the unknown chain mapped to an error dict. -/
def analyze_wallet (ethAdapter solAdapter : String → Option Nat → AnalysisOutcome)
    (address : String) (days : Option Nat) : AnalysisOutcome :=
  if detect_chain address == "ethereum" then ethAdapter address days
  else if detect_chain address == "solana" then solAdapter address days
  else .err "Unknown chain or invalid address"

/-- Models `analyze_multiple_wallets` (bot.py lines 476-479): one task per address
joined in input order (`asyncio.gather` keeps the order of its arguments). -/
def analyze_multiple_wallets (ethAdapter solAdapter : String → Option Nat → AnalysisOutcome)
    (addresses : List String) (days : Option Nat) : List AnalysisOutcome :=
  addresses.map (fun addr => analyze_wallet ethAdapter solAdapter addr days)

/-- C6: the batch returns exactly one outcome per input address, in input
order, each depending only on its own address; every outcome is either a
full result or a per-address error; an unknown-chain address yields the
error entry, and no address can affect any other position of the batch. -/
theorem batch_isolation_spec (ethAdapter solAdapter : String → Option Nat → AnalysisOutcome)
    (addresses : List String) (days : Option Nat) :
    (analyze_multiple_wallets ethAdapter solAdapter addresses days).length =
      addresses.length ∧
    (∀ i : Nat, (analyze_multiple_wallets ethAdapter solAdapter addresses days)[i]? =
      (addresses[i]?).map (fun addr => analyze_wallet ethAdapter solAdapter addr days)) ∧
    (∀ addr days2, detect_chain addr = "unknown" →
      analyze_wallet ethAdapter solAdapter addr days2 =
        .err "Unknown chain or invalid address") ∧
    (∀ r ∈ analyze_multiple_wallets ethAdapter solAdapter addresses days,
      (∃ c a, r = .ok c a) ∨ ∃ m, r = .err m) := by
  refine ⟨by simp [analyze_multiple_wallets], ?_, ?_, ?_⟩
  · intro i
    simp [analyze_multiple_wallets]
  · intro addr days2 hunk
    unfold analyze_wallet
    rw [hunk]
    simp
  · intro r _
    cases r with
    | ok c a => exact Or.inl ⟨c, a, rfl⟩
    | err m => exact Or.inr ⟨m, rfl⟩

def ethStub : String → Option Nat → AnalysisOutcome := fun a _ => .ok "Ethereum" a

def solStub : String → Option Nat → AnalysisOutcome := fun a _ => .ok "Solana" a

/-- C6 witness: a malformed address yields the per-address error entry. -/
theorem batch_isolation_spec_witness :
    analyze_wallet ethStub solStub "xyz" none = .err "Unknown chain or invalid address" :=
  (batch_isolation_spec ethStub solStub [] none).2.2.1 "xyz" none (by decide)

end Wallet
